import Mathlib

set_option maxRecDepth 100000

/-!
Verification of the dataset-assembly and serving pipeline of the
TwitterAIReporter repository.

Python strings are embedded as `List Char`; `len` is `List.length`,
`str.strip()` is `trim`, `str.split('.')` is `splitOnChar '.'`,
`str.replace(a, b)` on single characters is `List.map`.
All definitions are transcribed from
`src/training/scripts/download_datasets.py`,
`src/training/scripts/export_model.py` and
`src/inference-python/main.py`.
-/

namespace TwitterAIReporter

/-- Python `str.strip()` from the left: drop leading whitespace. -/
def trimLeft (l : List Char) : List Char := l.dropWhile Char.isWhitespace

/-- Python `str.strip()` from the right: drop trailing whitespace. -/
def trimRight (l : List Char) : List Char :=
  (l.reverse.dropWhile Char.isWhitespace).reverse

/-- Python `str.strip()`: drop leading and trailing whitespace. -/
def trim (l : List Char) : List Char := trimRight (trimLeft l)

/-- Python `str.split(sep)` for a one-character separator `c`:
splits on every occurrence of `c`, keeping empty fragments. -/
def splitOnChar (c : Char) : List Char → List (List Char)
  | [] => [[]]
  | x :: xs =>
    match splitOnChar c xs with
    | [] => [[]]
    | y :: ys => if x = c then [] :: y :: ys else (x :: y) :: ys

theorem length_dropWhile_le (p : Char → Bool) (l : List Char) :
    (l.dropWhile p).length ≤ l.length := by
  induction l with
  | nil => simp [List.dropWhile]
  | cons x xs ih =>
    simp only [List.dropWhile]
    cases p x <;> simp [Nat.le_succ_of_le ih]

theorem trim_length_le (l : List Char) : (trim l).length ≤ l.length := by
  unfold trim trimRight trimLeft
  calc ((l.dropWhile Char.isWhitespace).reverse.dropWhile Char.isWhitespace).reverse.length
      = ((l.dropWhile Char.isWhitespace).reverse.dropWhile Char.isWhitespace).length := by
        rw [List.length_reverse]
    _ ≤ (l.dropWhile Char.isWhitespace).reverse.length :=
        length_dropWhile_le _ _
    _ = (l.dropWhile Char.isWhitespace).length := by rw [List.length_reverse]
    _ ≤ l.length := length_dropWhile_le _ _

/-- A canonical record produced by a source connector
(`download_datasets.py`): text plus label and provenance. -/
structure Record where
  text : List Char
  label : Int
  source : List Char
  category : List Char
deriving DecidableEq, Repr

/-- A segmented record: a `Record` plus the `text_type` tag added by
`create_short_text_samples`. -/
structure SegRecord where
  text : List Char
  label : Int
  source : List Char
  category : List Char
  text_type : List Char
deriving DecidableEq, Repr

/-- The `original_short` emission of `create_short_text_samples`
(lines 250-255): the record unchanged, tagged `original_short`. -/
def origSeg (item : Record) : SegRecord :=
  { text := item.text, label := item.label, source := item.source,
    category := item.category, text_type := "original_short".toList }

/-- A `chunked` emission of `create_short_text_samples`
(lines 267-285): chunk text with the label/source/category of the item. -/
def chunkSeg (item : Record) (chunk : List Char) : SegRecord :=
  { text := chunk, label := item.label, source := item.source,
    category := item.category, text_type := "chunked".toList }

/-- The greedy sentence-packing loop of `create_short_text_samples`
(lines 262-285): fold over the sentence list carrying the running
`current_chunk`, flushing chunks of length at least 30 whenever
appending the next sentence would overflow `max_length`, and flushing
the final chunk at the end. -/
def packChunks (maxLength : Nat) (item : Record) :
    List (List Char) → List Char → List SegRecord
  | [], chunk => if 30 ≤ chunk.length then [chunkSeg item chunk] else []
  | s :: rest, chunk =>
    if chunk.length + s.length + 1 ≤ maxLength then
      packChunks maxLength item rest
        (if chunk = [] then s else trim (chunk ++ ' ' :: s))
    else
      (if 30 ≤ chunk.length then [chunkSeg item chunk] else []) ++
        packChunks maxLength item rest
          (if s.length ≤ maxLength then s else [])

/-- Per-record segmentation of `create_short_text_samples` (lines
246-285): a short record is emitted as-is tagged `original_short`; a
long record is split on sentence terminators (with `!` and `?`
replaced by `.` first), fragments are stripped and empty fragments
dropped, and the result is packed greedily. -/
def segmentOne (maxLength : Nat) (item : Record) : List SegRecord :=
  if item.text.length ≤ maxLength then [origSeg item]
  else
    let sentences :=
      (((splitOnChar '.'
          ((item.text.map (fun c => if c = '!' then '.' else c)).map
            (fun c => if c = '?' then '.' else c))).map trim).filter
        (fun s => decide (s ≠ [])))
    packChunks maxLength item sentences []

/-- Embedding of `create_short_text_samples(data, max_length)` (lines 237-288):
segment every record, concatenating emissions in order. -/
def create_short_text_samples (data : List Record) (maxLength : Nat) :
    List SegRecord :=
  data.flatMap (segmentOne maxLength)

theorem packChunks_sound (maxLength : Nat) (item : Record) :
    ∀ (sentences : List (List Char)) (chunk : List Char),
      chunk.length ≤ maxLength →
      ∀ out ∈ packChunks maxLength item sentences chunk,
        out.text.length ≤ maxLength ∧ out.text_type = "chunked".toList ∧
          30 ≤ out.text.length := by
  intro sentences
  induction sentences with
  | nil =>
    intro chunk hc out hout
    simp only [packChunks] at hout
    split at hout
    · rcases List.mem_singleton.mp hout with rfl
      exact ⟨hc, rfl, by assumption⟩
    · exact absurd hout (List.not_mem_nil out)
  | cons s rest ih =>
    intro chunk hc out hout
    simp only [packChunks] at hout
    split at hout
    · rename_i hfit
      refine ih _ ?_ out hout
      split
      · omega
      · calc (trim (chunk ++ ' ' :: s)).length
            ≤ (chunk ++ ' ' :: s).length := trim_length_le _
          _ = chunk.length + s.length + 1 := by simp [List.length_append]; omega
          _ ≤ maxLength := hfit
    · rcases List.mem_append.mp hout with hl | hr
      · split at hl
        · rcases List.mem_singleton.mp hl with rfl
          exact ⟨hc, rfl, by assumption⟩
        · exact absurd hl (List.not_mem_nil out)
      · refine ih _ ?_ out hr
        split
        · assumption
        · simp

theorem segmentOne_short (maxLength : Nat) (item : Record)
    (h : item.text.length ≤ maxLength) :
    segmentOne maxLength item = [origSeg item] := by
  simp [segmentOne, h]

theorem segmentOne_sound (maxLength : Nat) (item : Record) :
    ∀ out ∈ segmentOne maxLength item,
      out.text.length ≤ maxLength ∧
        (out.text_type = "chunked".toList → 30 ≤ out.text.length) := by
  intro out hout
  by_cases h : item.text.length ≤ maxLength
  · rw [segmentOne_short maxLength item h] at hout
    rcases List.mem_singleton.mp hout with rfl
    refine ⟨h, fun htag => ?_⟩
    exact absurd htag (by simp [origSeg])
  · simp only [segmentOne, if_neg h] at hout
    have := packChunks_sound maxLength item _ [] (by simp) out hout
    exact ⟨this.1, fun _ => this.2.2⟩

theorem splitOnChar_no_sep (c : Char) (l : List Char)
    (h : ∀ x ∈ l, x ≠ c) : splitOnChar c l = [l] := by
  induction l with
  | nil => rfl
  | cons x xs ih =>
    have hx : x ≠ c := h x (List.mem_cons_self x xs)
    have hxs : splitOnChar c xs = [xs] :=
      ih fun y hy => h y (List.mem_cons_of_mem x hy)
    simp [splitOnChar, hxs, hx]

theorem map_id_of_ne (f : Char → Char) (l : List Char)
    (h : ∀ x ∈ l, f x = x) : l.map f = l := by
  induction l with
  | nil => rfl
  | cons x xs ih =>
    simp only [List.map_cons, h x (List.mem_cons_self x xs),
      ih fun y hy => h y (List.mem_cons_of_mem x hy)]

/-- A record of length 32, already short enough for one tweet. -/
def recShort : Record :=
  { text := "Hello world, a short sample text".toList, label := 0,
    source := "hc3".toList, category := "qa".toList }

/-- A 500-character record with no sentence terminators at all. -/
def recA : Record :=
  { text := List.replicate 500 'A', label := 1,
    source := "pile_unknown".toList, category := "essay".toList }

/-- C1: with `max_length = 280`, every Segmenter output has length at
most 280, every `chunked`-tagged output has length at least 30, and
every input record whose text is at most 280 characters is emitted
exactly once, unchanged and tagged `original_short`. -/
theorem segmenter_contract (data : List Record) :
    (∀ out ∈ create_short_text_samples data 280,
      out.text.length ≤ 280 ∧
        (out.text_type = "chunked".toList → 30 ≤ out.text.length)) ∧
    (∀ item ∈ data, item.text.length ≤ 280 →
      segmentOne 280 item = [origSeg item]) := by
  constructor
  · intro out hout
    rcases List.mem_flatMap.mp hout with ⟨item, _, hseg⟩
    exact segmentOne_sound 280 item out hseg
  · intro item _ h
    exact segmentOne_short 280 item h

/-- Witness for C1 on a concrete one-record dataset. -/
theorem segmenter_contract_witness :
    (origSeg recShort).text.length ≤ 280 ∧
      segmentOne 280 recShort = [origSeg recShort] := by
  have h := segmenter_contract [recShort]
  refine ⟨?_, ?_⟩
  · exact (h.1 (origSeg recShort) (by decide)).1
  · exact h.2 recShort (by decide) (by decide)

/-- C4 counterexample: on `{text: "A"*500, label: AI}` the Segmenter
emits no chunk at all, so the claim that it yields at least one chunk
is false. -/
theorem segmenter_longA_counterexample :
    create_short_text_samples [recA] 280 = [] ∧
      recA.text = List.replicate 500 'A' ∧ recA.label = 1 := by
  refine ⟨?_, rfl, rfl⟩
  decide

theorem packChunks_single_overlong (maxLength : Nat) (item : Record)
    (s : List Char) (h : maxLength < s.length) :
    packChunks maxLength item [s] [] = [] := by
  simp only [packChunks, List.length_nil]
  rw [if_neg (by omega : ¬ 0 + s.length + 1 ≤ maxLength)]
  rw [if_neg (by norm_num : ¬ (30 : Nat) ≤ 0)]
  rw [if_neg (not_le.mpr h)]
  simp

/-- C4 amended: a record longer than 280 characters whose text has no
sentence terminator (and stays longer than 280 after stripping) is
dropped: the Segmenter yields zero chunks for it. -/
theorem segmentOne_no_terminator (item : Record)
    (hlen : 280 < item.text.length)
    (htrim : 280 < (trim item.text).length)
    (hchars : ∀ c ∈ item.text, c ≠ '.' ∧ c ≠ '!' ∧ c ≠ '?') :
    segmentOne 280 item = [] := by
  have hmap1 :
      item.text.map (fun c => if c = '!' then '.' else c) = item.text :=
    map_id_of_ne _ _ fun x hx => by simp [(hchars x hx).2.1]
  have hmap2 :
      item.text.map (fun c => if c = '?' then '.' else c) = item.text :=
    map_id_of_ne _ _ fun x hx => by simp [(hchars x hx).2.2]
  have hsplit : splitOnChar '.' item.text = [item.text] :=
    splitOnChar_no_sep _ _ fun x hx => (hchars x hx).1
  have htne : trim item.text ≠ [] := by
    intro h0
    rw [h0] at htrim
    simp at htrim
  have hfilter : List.filter (fun s => decide (s ≠ []))
      [trim item.text] = [trim item.text] := by simp [htne]
  unfold segmentOne
  rw [if_neg (by omega)]
  simp only [hmap1, hmap2, hsplit, List.map_cons, List.map_nil, hfilter]
  exact packChunks_single_overlong 280 item (trim item.text) htrim

/-- Witness for the amended C4 statement at the concrete record. -/
theorem segmentOne_no_terminator_witness :
    segmentOne 280 recA = [] :=
  segmentOne_no_terminator recA (by decide) (by decide) (by decide)

/-- Embedding of `balance_dataset(data)` (`download_datasets.py` lines 291-314):
partition by label, shuffle each side, undersample both to the size of
the smaller side, concatenate and reshuffle.  The three calls to
`random.shuffle` are passed in as functions `sh1`, `sh2`, `sh3`. -/
def balance_dataset (sh1 sh2 sh3 : List SegRecord → List SegRecord)
    (data : List SegRecord) : List SegRecord :=
  let human_samples := data.filter (fun d => decide (d.label = 0))
  let ai_samples := data.filter (fun d => decide (d.label = 1))
  let min_count := min human_samples.length ai_samples.length
  sh3 ((sh1 human_samples).take min_count ++
       (sh2 ai_samples).take min_count)

theorem countP_eq_length_of_all {l : List SegRecord}
    {p : SegRecord → Bool} (h : ∀ a ∈ l, p a = true) :
    l.countP p = l.length := List.countP_eq_length.mpr h

theorem countP_eq_zero_of_none {l : List SegRecord}
    {p : SegRecord → Bool} (h : ∀ a ∈ l, p a = false) :
    l.countP p = 0 :=
  List.countP_eq_zero.mpr fun a ha => by simp [h a ha]

/-- C2: whenever the three shuffles are permutations, the Balancer
output has exactly `min(human_count, ai_count)` records of each label
and total length `2 * min(human_count, ai_count)`. -/
theorem balance_dataset_counts
    (sh1 sh2 sh3 : List SegRecord → List SegRecord)
    (hsh1 : ∀ l, (sh1 l).Perm l) (hsh2 : ∀ l, (sh2 l).Perm l)
    (hsh3 : ∀ l, (sh3 l).Perm l) (data : List SegRecord) :
    (balance_dataset sh1 sh2 sh3 data).countP
        (fun d => decide (d.label = 0)) =
      min (data.countP (fun d => decide (d.label = 0)))
        (data.countP (fun d => decide (d.label = 1))) ∧
    (balance_dataset sh1 sh2 sh3 data).countP
        (fun d => decide (d.label = 1)) =
      min (data.countP (fun d => decide (d.label = 0)))
        (data.countP (fun d => decide (d.label = 1))) ∧
    (balance_dataset sh1 sh2 sh3 data).length =
      2 * min (data.countP (fun d => decide (d.label = 0)))
        (data.countP (fun d => decide (d.label = 1))) := by
  set p0 : SegRecord → Bool := fun d => decide (d.label = 0) with hp0
  set p1 : SegRecord → Bool := fun d => decide (d.label = 1) with hp1
  set hs := data.filter p0 with hhs
  set as := data.filter p1 with has
  set m := min hs.length as.length with hm
  have hcount0 : data.countP p0 = hs.length := by
    rw [hhs, List.countP_eq_length_filter]
  have hcount1 : data.countP p1 = as.length := by
    rw [has, List.countP_eq_length_filter]
  have hmem0 : ∀ a ∈ (sh1 hs).take m, p0 a = true := by
    intro a ha
    have : a ∈ hs := (hsh1 hs).mem_iff.mp (List.mem_of_mem_take ha)
    exact List.of_mem_filter this
  have hmem1 : ∀ a ∈ (sh2 as).take m, p1 a = true := by
    intro a ha
    have : a ∈ as := (hsh2 as).mem_iff.mp (List.mem_of_mem_take ha)
    exact List.of_mem_filter this
  have hdisj0 : ∀ a ∈ (sh2 as).take m, p0 a = false := by
    intro a ha
    have h1 := hmem1 a ha
    simp only [hp1, decide_eq_true_eq] at h1
    simp [hp0, h1]
  have hdisj1 : ∀ a ∈ (sh1 hs).take m, p1 a = false := by
    intro a ha
    have h0 := hmem0 a ha
    simp only [hp0, decide_eq_true_eq] at h0
    simp [hp1, h0]
  have hlen1 : ((sh1 hs).take m).length = m := by
    rw [List.length_take, (hsh1 hs).length_eq]
    omega
  have hlen2 : ((sh2 as).take m).length = m := by
    rw [List.length_take, (hsh2 as).length_eq]
    omega
  have hout : (balance_dataset sh1 sh2 sh3 data).Perm
      ((sh1 hs).take m ++ (sh2 as).take m) := by
    simpa [balance_dataset, ← hhs, ← has, ← hm] using
      hsh3 ((sh1 hs).take m ++ (sh2 as).take m)
  refine ⟨?_, ?_, ?_⟩
  · rw [hout.countP_eq, List.countP_append,
      countP_eq_length_of_all hmem0, countP_eq_zero_of_none hdisj0,
      hlen1, hcount0, hcount1]
    omega
  · rw [hout.countP_eq, List.countP_append,
      countP_eq_zero_of_none hdisj1, countP_eq_length_of_all hmem1,
      hlen2, hcount0, hcount1]
    omega
  · rw [hout.length_eq, List.length_append, hlen1, hlen2,
      hcount0, hcount1]
    omega

/-- A concrete human-labeled segmented record. -/
def segH : SegRecord :=
  { text := "a human sample text that is long enough".toList,
    label := 0, source := "hc3".toList, category := "qa".toList,
    text_type := "original_short".toList }

/-- A concrete AI-labeled segmented record. -/
def segA : SegRecord :=
  { text := "an ai sample text that is long enough!!".toList,
    label := 1, source := "hc3".toList, category := "qa".toList,
    text_type := "original_short".toList }

/-- Witness for C2 with identity shuffles on a 3-record input. -/
theorem balance_dataset_counts_witness :
    (balance_dataset id id id [segH, segA, segA]).countP
        (fun d => decide (d.label = 0)) = 1 ∧
      (balance_dataset id id id [segH, segA, segA]).length = 2 := by
  have h := balance_dataset_counts id id id
    (fun l => List.Perm.refl l) (fun l => List.Perm.refl l)
    (fun l => List.Perm.refl l) [segH, segA, segA]
  exact ⟨by rw [h.1]; decide, by rw [h.2.2]; decide⟩

/-- The train/val/test split of `main` (`download_datasets.py` lines
380-386): after the global shuffle, `train_end = int(n * 0.8)` and
`val_end = int(n * 0.9)` (exact floors, embedded as `n * 8 / 10` and
`n * 9 / 10`), then the three Python slices. -/
def split_dataset (balanced : List SegRecord) :
    List SegRecord × List SegRecord × List SegRecord :=
  let n := balanced.length
  let train_end := n * 8 / 10
  let val_end := n * 9 / 10
  (balanced.take train_end,
   (balanced.drop train_end).take (val_end - train_end),
   balanced.drop val_end)

/-- C3: after a single global shuffle, the three splits concatenate
back to the shuffled list, their lengths sum to the input length, and
when the shuffled list has no duplicates the splits are pairwise
disjoint. -/
theorem split_dataset_partition
    (sh : List SegRecord → List SegRecord)
    (hsh : ∀ l, (sh l).Perm l) (balanced : List SegRecord) :
    (split_dataset (sh balanced)).1 ++
        (split_dataset (sh balanced)).2.1 ++
        (split_dataset (sh balanced)).2.2 = sh balanced ∧
    (split_dataset (sh balanced)).1.length +
        (split_dataset (sh balanced)).2.1.length +
        (split_dataset (sh balanced)).2.2.length = balanced.length ∧
    ((sh balanced).Nodup →
      (∀ x ∈ (split_dataset (sh balanced)).1,
        x ∉ (split_dataset (sh balanced)).2.1 ∧
          x ∉ (split_dataset (sh balanced)).2.2) ∧
      (∀ x ∈ (split_dataset (sh balanced)).2.1,
        x ∉ (split_dataset (sh balanced)).2.2)) := by
  set l := sh balanced with hl
  set n := l.length with hn
  set t := n * 8 / 10 with ht
  set v := n * 9 / 10 with hv
  have htv : t ≤ v := by
    rw [ht, hv]
    exact Nat.div_le_div_right (Nat.mul_le_mul_left n (by norm_num))
  have happ : l.take t ++ ((l.drop t).take (v - t) ++ l.drop v) = l := by
    have hdd : (l.drop t).drop (v - t) = l.drop v := by
      rw [List.drop_drop, Nat.add_sub_cancel' htv]
    conv_rhs => rw [← List.take_append_drop t l]
    rw [← hdd, List.take_append_drop]
  have happ' : (split_dataset l).1 ++ (split_dataset l).2.1 ++
      (split_dataset l).2.2 = l := by
    rw [List.append_assoc]
    exact happ
  refine ⟨happ', ?_, ?_⟩
  · have := congrArg List.length happ'
    simp only [List.length_append] at this
    rw [this, ← hn]
    exact (hsh balanced).length_eq
  · intro hnd
    rw [← happ'] at hnd
    rw [List.append_assoc] at hnd
    rcases List.nodup_append.mp hnd with ⟨_, hnd2, hdisj1⟩
    rcases List.nodup_append.mp hnd2 with ⟨_, _, hdisj2⟩
    refine ⟨fun x hx => ?_, fun x hx => ?_⟩
    · have h := hdisj1 hx
      simp only [List.mem_append] at h
      exact ⟨fun hc => h (Or.inl hc), fun hc => h (Or.inr hc)⟩
    · exact fun hc => hdisj2 hx hc

/-- Witness for C3 with the identity shuffle on a 2-record input. -/
theorem split_dataset_partition_witness :
    (split_dataset [segH, segA]).1 ++ (split_dataset [segH, segA]).2.1
        ++ (split_dataset [segH, segA]).2.2 = [segH, segA] ∧
      (split_dataset [segH, segA]).1.length +
        (split_dataset [segH, segA]).2.1.length +
        (split_dataset [segH, segA]).2.2.length = 2 ∧
      ∀ x ∈ (split_dataset [segH, segA]).1,
        x ∉ (split_dataset [segH, segA]).2.1 := by
  have h := split_dataset_partition id (fun l => List.Perm.refl l)
    [segH, segA]
  exact ⟨h.1, h.2.1, fun x hx => (h.2.2 (by decide) |>.1 x hx).1⟩

/-- A raw label value as it can arrive from the
`artem9k/ai-text-detection-pile` connector: a string, a boolean or an
integer field. -/
inductive RawLabel where
  | str (s : List Char)
  | bool (b : Bool)
  | int (n : Int)
deriving DecidableEq, Repr

/-- The string values that `download_ai_detection_pile` maps to the AI
label (`download_datasets.py` line 102). -/
def aiLabelStrings : List (List Char) :=
  ["ai".toList, "generated".toList, "gpt".toList, "1".toList,
   "true".toList]

/-- Label coercion of `download_ai_detection_pile`
(`download_datasets.py` lines 100-111): a string is lowercased and
compared against `aiLabelStrings`; a boolean becomes 0/1; an integer
passes through `int(label)` unchanged. -/
def coerceLabel : RawLabel → Int
  | .str s => if s.map Char.toLower ∈ aiLabelStrings then 1 else 0
  | .bool b => if b then 1 else 0
  | .int n => n

/-- Modelled from the spec: the string values the spec claims are the
only ones mapped to AI ("ai", "generated", "true" and "1",
case-insensitive). -/
def specAiLabelStrings : List (List Char) :=
  ["ai".toList, "generated".toList, "true".toList, "1".toList]

/-- C5 counterexample: the raw string label "gpt" is not in the
claimed list yet the code coerces it to AI, and the raw integer label 2
is stored as 2, which is neither canonical value. -/
theorem coerceLabel_counterexample :
    coerceLabel (RawLabel.str "gpt".toList) = 1 ∧
      "gpt".toList.map Char.toLower ∉ specAiLabelStrings ∧
      coerceLabel (RawLabel.int 2) = 2 ∧ (2 : Int) ≠ 0 ∧
      (2 : Int) ≠ 1 := by
  refine ⟨by decide, by decide, rfl, by decide, by decide⟩

/-- C5 amended: a string label maps to AI exactly when its lowercase
form is one of "ai", "generated", "gpt", "1", "true", and otherwise
to Human; a boolean maps true to AI and false to Human; an integer
raw label passes through unchanged, so only string and boolean
encodings are guaranteed to land on the two canonical values. -/
theorem coerceLabel_amended :
    (∀ s : List Char,
      (coerceLabel (RawLabel.str s) = 1 ↔
        s.map Char.toLower ∈ aiLabelStrings) ∧
      (coerceLabel (RawLabel.str s) = 0 ∨
        coerceLabel (RawLabel.str s) = 1)) ∧
    (∀ b : Bool, coerceLabel (RawLabel.bool b) = if b then 1 else 0) ∧
    (∀ n : Int, coerceLabel (RawLabel.int n) = n) := by
  refine ⟨fun s => ⟨?_, ?_⟩, fun b => rfl, fun n => rfl⟩
  · simp only [coerceLabel]
    split
    · simpa
    · simpa
  · simp only [coerceLabel]
    split
    · exact Or.inr rfl
    · exact Or.inl rfl

/-- The ingestion length filter shared by `download_hc3` (line 43) and
`download_ai_detection_pile` (line 108): keep a record exactly when
the raw text is non-empty and its stripped form is strictly longer
than 20 characters. -/
def keepsText (t : List Char) : Bool :=
  decide (t ≠ []) && decide (20 < (trim t).length)

/-- C8 counterexample: a 20-character trimmed text is dropped by the
code even though the claim says a trimmed length of exactly 20 is
retained. -/
theorem keepsText_counterexample :
    keepsText (List.replicate 20 'a') = false ∧
      (trim (List.replicate 20 'a')).length = 20 ∧
      trim (List.replicate 20 'a') ≠ [] := by
  refine ⟨by decide, by decide, by decide⟩

/-- C8 amended: a raw record is retained by ingestion if and only if
its trimmed text is strictly longer than 20 characters (at least 21);
records failing the filter are dropped by returning `false`, not by
raising. -/
theorem keepsText_amended (t : List Char) :
    keepsText t = true ↔ 20 < (trim t).length := by
  constructor
  · intro h
    simp only [keepsText, Bool.and_eq_true, decide_eq_true_eq] at h
    exact h.2
  · intro h
    have hne : t ≠ [] := by
      intro h0
      rw [h0] at h
      simp [trim, trimLeft, trimRight, List.dropWhile] at h
    simp [keepsText, hne, h]

/-- List-level check that `pat` starts the list `l`. -/
def startsWithList : List Char → List Char → Bool
  | [], _ => true
  | _ :: _, [] => false
  | p :: ps, x :: xs => p = x && startsWithList ps xs

/-- A file name matched by the glob `group*.bin` of `verify_export`
(`export_model.py` line 205): starts with `group`, ends with `.bin`. -/
def isWeightFile (f : List Char) : Bool :=
  startsWithList "group".toList f &&
    startsWithList ".bin".toList.reverse f.reverse

/-- The exported TensorFlow.js directory as `verify_export` sees it:
the file names present, and the `format` field of `model.json` when
that file declares one. -/
structure TfjsDir where
  files : List (List Char)
  manifestFormat : Option (List Char)
deriving DecidableEq, Repr

/-- Embedding of `verify_export(tfjs_path)` (`export_model.py` lines 195-218):
raise naming `model.json` when it is missing, raise when no
`group*.bin` weight file exists, then read the manifest field `format`
field with default `unknown` (it is only printed) and return `True`. -/
def verify_export (d : TfjsDir) : Except (List Char) Bool :=
  if "model.json".toList ∉ d.files then
    Except.error ("Missing required file: model.json".toList)
  else if d.files.any isWeightFile = false then
    Except.error ("No weight files found".toList)
  else
    Except.ok true

/-- A bundle with manifest and weights but no declared format field. -/
def dirNoFormat : TfjsDir :=
  { files := ["model.json".toList, "group1-shard1of1.bin".toList],
    manifestFormat := none }

/-- A bundle with no manifest file at all. -/
def dirNoManifest : TfjsDir :=
  { files := ["group1-shard1of1.bin".toList], manifestFormat := none }

/-- C6 counterexample: a bundle whose manifest declares no `format`
field still verifies successfully, so the claim that a missing format
field is a fatal verification error is false. -/
theorem verify_export_counterexample :
    verify_export dirNoFormat = Except.ok true ∧
      dirNoFormat.manifestFormat = none := by
  exact ⟨rfl, rfl⟩

/-- C6 amended: verification fails naming `model.json` when the
manifest file is absent, fails with "No weight files found" when no
`group*.bin` file exists, and succeeds whenever both are present; the
manifest field `format` is only read with a default and its absence
is not an error. -/
theorem verify_export_amended (d : TfjsDir) :
    ("model.json".toList ∉ d.files →
      verify_export d =
        Except.error ("Missing required file: model.json".toList)) ∧
    ("model.json".toList ∈ d.files → d.files.any isWeightFile = false →
      verify_export d = Except.error ("No weight files found".toList)) ∧
    ("model.json".toList ∈ d.files → d.files.any isWeightFile = true →
      verify_export d = Except.ok true) := by
  refine ⟨fun h1 => ?_, fun h1 h2 => ?_, fun h1 h2 => ?_⟩
  · unfold verify_export
    rw [if_pos h1]
  · unfold verify_export
    rw [if_neg (not_not_intro h1), if_pos h2]
  · unfold verify_export
    rw [if_neg (not_not_intro h1), if_neg (by simp [h2])]

/-- Witness for the amended C6 on two concrete bundles. -/
theorem verify_export_amended_witness :
    verify_export dirNoManifest =
        Except.error ("Missing required file: model.json".toList) ∧
      verify_export dirNoFormat = Except.ok true :=
  ⟨(verify_export_amended dirNoManifest).1 (by decide),
   (verify_export_amended dirNoFormat).2.2 (by decide) (by decide)⟩

/-- The mutable globals of the inference server
(`inference-python/main.py` lines 17-20), as load state plus the
active device. -/
structure AppState where
  modelLoaded : Bool
  tokenizerLoaded : Bool
  device : Option (List Char)
deriving DecidableEq, Repr

/-- The body returned by `GET /health` (`main.py` lines 132-140). -/
structure HealthResponse where
  status : List Char
  modelLoaded : Bool
  tokenizerLoaded : Bool
  device : Option (List Char)
deriving DecidableEq, Repr

/-- Embedding of `health_check()` (`main.py` lines 132-140): constant status
string, the actual load flags, and the device string or null. -/
def health_check (s : AppState) : HealthResponse :=
  { status := "healthy".toList, modelLoaded := s.modelLoaded,
    tokenizerLoaded := s.tokenizerLoaded, device := s.device }

/-- C9: the health endpoint always reports status `healthy`, even
with nothing loaded; the load flags and device mirror the actual
state, so the status field carries no readiness information. -/
theorem health_check_contract (s : AppState) :
    (health_check s).status = "healthy".toList ∧
      (health_check s).modelLoaded = s.modelLoaded ∧
      (health_check s).tokenizerLoaded = s.tokenizerLoaded ∧
      (health_check s).device = s.device :=
  ⟨rfl, rfl, rfl, rfl⟩

/-- Embedding of `POST /predict` (`main.py` lines 143-166): reject with 503 while
model or tokenizer is missing, strip the request text, reject empty
or over-1000-character stripped text with 400, then run inference,
mapping success to 200 with the probabilities and any exception to
500.  The tokenize-forward-softmax call `predict_internal` is the
opaque parameter `infer`. -/
def predict (s : AppState) (textRaw : List Char)
    (infer : List Char → Except Unit (ℚ × ℚ)) :
    Nat × Option (ℚ × ℚ) :=
  if s.modelLoaded = false ∨ s.tokenizerLoaded = false then (503, none)
  else
    let text := trim textRaw
    if text = [] then (400, none)
    else if 1000 < text.length then (400, none)
    else
      match infer text with
      | Except.ok p => (200, some p)
      | Except.error _ => (500, none)

/-- The fully loaded server state. -/
def loadedState : AppState :=
  { modelLoaded := true, tokenizerLoaded := true,
    device := some ("cpu".toList) }

/-- The server state before the model is loaded. -/
def unloadedState : AppState :=
  { modelLoaded := false, tokenizerLoaded := false, device := none }

/-- An inference stub that always succeeds with equal probabilities. -/
def inferHalf : List Char → Except Unit (ℚ × ℚ) :=
  fun _ => Except.ok (1/2, 1/2)

/-- C7 counterexample: with the model loaded and inference
succeeding, the one-space request text is neither empty nor longer
than 1000 characters, yet the endpoint answers 400, because the code
strips the text before checking it. -/
theorem predict_counterexample :
    predict loadedState [' '] inferHalf = (400, none) ∧
      ([' '] : List Char) ≠ [] ∧ ([' '] : List Char).length ≤ 1000 ∧
      loadedState.modelLoaded = true ∧
      inferHalf [' '] = Except.ok (1/2, 1/2) := by
  refine ⟨rfl, by decide, by decide, rfl, rfl⟩

/-- C7 amended: 503 whenever model or tokenizer is unloaded; on the
stripped text, 400 when it is empty or longer than 1000 characters;
otherwise 200 with the inference probabilities, or 500 when inference
raises. -/
theorem predict_amended (s : AppState) (t : List Char)
    (infer : List Char → Except Unit (ℚ × ℚ)) :
    (s.modelLoaded = false ∨ s.tokenizerLoaded = false →
      predict s t infer = (503, none)) ∧
    (s.modelLoaded = true → s.tokenizerLoaded = true →
      (trim t = [] → predict s t infer = (400, none)) ∧
      (trim t ≠ [] → 1000 < (trim t).length →
        predict s t infer = (400, none)) ∧
      (trim t ≠ [] → (trim t).length ≤ 1000 →
        (∀ p, infer (trim t) = Except.ok p →
          predict s t infer = (200, some p)) ∧
        (∀ e, infer (trim t) = Except.error e →
          predict s t infer = (500, none)))) := by
  refine ⟨fun h => ?_, fun hm ht => ⟨fun he => ?_, fun hne hlong => ?_,
    fun hne hshort => ⟨fun p hp => ?_, fun e hp => ?_⟩⟩⟩
  · simp [predict, h]
  · simp [predict, hm, ht, he]
  · simp [predict, hm, ht, hne, hlong]
  · simp [predict, hm, ht, hne, Nat.not_lt.mpr hshort, hp]
  · simp [predict, hm, ht, hne, Nat.not_lt.mpr hshort, hp]

/-- Witness for the amended C7: a normal request answers 200 and a
request before loading answers 503. -/
theorem predict_amended_witness :
    predict loadedState ("hello world".toList) inferHalf =
        (200, some (1/2, 1/2)) ∧
      predict unloadedState ("hello world".toList) inferHalf =
        (503, none) :=
  ⟨((predict_amended loadedState ("hello world".toList) inferHalf).2
      rfl rfl).2.2 (by decide) (by decide) |>.1 (1/2, 1/2) rfl,
   (predict_amended unloadedState ("hello world".toList) inferHalf).1
      (Or.inl rfl)⟩

/-- The statistics record built by `main`
(`download_datasets.py` lines 401-410). -/
structure Stats where
  total_samples : Nat
  train_samples : Nat
  val_samples : Nat
  test_samples : Nat
  human_samples : Nat
  ai_samples : Nat
  sources : List (List Char)
  avg_text_length : ℚ
deriving DecidableEq, Repr

/-- The `stats` dictionary construction of `main` (lines 401-410).
The final entry divides by `len(balanced_data)`, which raises
`ZeroDivisionError` on an empty balanced set; the raise is embedded
as `none`, in which case `main` never reaches the write of
`stats.json` (lines 412-415). -/
def compute_stats (balanced train val test : List SegRecord) :
    Option Stats :=
  if balanced.length = 0 then none
  else
    some
      { total_samples := balanced.length,
        train_samples := train.length,
        val_samples := val.length,
        test_samples := test.length,
        human_samples :=
          (balanced.filter (fun d => decide (d.label = 0))).length,
        ai_samples :=
          (balanced.filter (fun d => decide (d.label = 1))).length,
        sources := (balanced.map (fun d => d.source)).dedup,
        avg_text_length :=
          (balanced.map (fun d => (d.text.length : ℚ))).sum /
            (balanced.length : ℚ) }

/-- C10: when every source yields zero records, segmentation and
balancing produce the empty balanced set, and the statistics
computation fails on the division by `len(balanced_data)` (embedded
as `none`), so the run aborts before writing `stats.json` instead of
completing with empty splits. -/
theorem stats_empty_run
    (sh1 sh2 sh3 : List SegRecord → List SegRecord)
    (hsh3 : ∀ l, (sh3 l).Perm l) :
    create_short_text_samples [] 280 = [] ∧
      balance_dataset sh1 sh2 sh3 (create_short_text_samples [] 280)
        = [] ∧
      compute_stats
        (balance_dataset sh1 sh2 sh3 (create_short_text_samples [] 280))
        (split_dataset (balance_dataset sh1 sh2 sh3
          (create_short_text_samples [] 280))).1
        (split_dataset (balance_dataset sh1 sh2 sh3
          (create_short_text_samples [] 280))).2.1
        (split_dataset (balance_dataset sh1 sh2 sh3
          (create_short_text_samples [] 280))).2.2 = none := by
  have hseg : create_short_text_samples [] 280 = [] := rfl
  have hbal : balance_dataset sh1 sh2 sh3
      (create_short_text_samples [] 280) = [] := by
    rw [hseg]
    have : balance_dataset sh1 sh2 sh3 [] = sh3 [] := by
      simp [balance_dataset]
    rw [this]
    exact (hsh3 []).eq_nil
  refine ⟨hseg, hbal, ?_⟩
  rw [hbal]
  rfl

/-- Witness for C10 with identity shuffles. -/
theorem stats_empty_run_witness :
    balance_dataset id id id (create_short_text_samples [] 280) = [] ∧
      compute_stats
        (balance_dataset id id id (create_short_text_samples [] 280))
        [] [] [] = none := by
  have h := stats_empty_run id id id (fun l => List.Perm.refl l)
  exact ⟨h.2.1, by rw [h.2.1]; rfl⟩

end TwitterAIReporter
